import Mathlib

/-!
# Shallow embedding of the pulpos semihosting / buffered-console core

This file embeds, in Lean 4, the parts of the `gvsoc/pulpos` runtime that the
verification below is about:

* `src/chips/pulp_open/kernel/hal.c` — the buffered console
  (`__pi_libc_fputc_safe` over the static 128-byte `__pi_libc_buffer` and the
  cursor `__pi_libc_buffer_index`);
* `src/chips/pulp_open/kernel/hal.h` — `PI_LIBC_PUTC_BUFFER_SIZE`,
  `__pi_libc_write`, `__pi_init_platform_exit`;
* `src/kernel/semihost.h` — the trap primitive `__pi_libc_semihost` and the
  typed wrappers (`open`, `write`, `exit`, …) together with their operation
  numbers and exit codes;
* `src/lib/libc/minimal/io.c` — `puts`.

Modelling conventions:

* Machine bytes are `Int` values; a store into the `char` array converts the
  stored `int` mod 256 (`char` is unsigned on the RISC-V ABI this code targets).
* The console buffer is modelled as unbounded memory `Nat → Int` so that the
  out-of-bounds terminator store at index 128 (one past the declared 128-byte
  array) is expressible and observable rather than undefined.
* The host side of a semihosting trap is a parameter (`host`): it receives the
  call and produces the trap's result value.  The C code under study never
  inspects that result on the console path, which the theorems below make
  explicit.
* `uint_t` comes from `kernel/riscv.h`, which is not part of the sources under
  study; per the specification's data model the argument-block entries are
  machine-word-sized values, modelled here as 32-bit words (RISC-V rv32).
-/

/-- `PI_LIBC_PUTC_BUFFER_SIZE` from `chips/pulp_open/kernel/hal.h`. -/
def PI_LIBC_PUTC_BUFFER_SIZE : Nat := 128

/-- Conversion of a C `int` to the (unsigned, RISC-V ABI) `char` stored in
`__pi_libc_buffer`: reduction mod 256.  `Int.emod` is nonnegative for a
positive modulus, so the result lies in `[0, 256)`. -/
def charOfInt (c : Int) : Int := c % 256

/-- A byte value, i.e. an `int` whose conversion to `char` is the identity. -/
def IsByte (c : Int) : Prop := 0 ≤ c ∧ c < 256

instance (c : Int) : Decidable (IsByte c) := by
  unfold IsByte; infer_instance

/-- Pointwise memory update: `store buf i v` is the memory `buf` after the C
statement `buf[i] = v`. -/
def store (buf : Nat → Int) (i : Nat) (v : Int) : Nat → Int :=
  fun j => if j = i then v else buf j

/-- The state of the buffered console: the memory holding
`static char __pi_libc_buffer[PI_LIBC_PUTC_BUFFER_SIZE]` (indices `0..127`;
index `128` is the adjacent byte past the array's end) and the cursor
`static int __pi_libc_buffer_index`. -/
structure ConsoleState where
  buffer : Nat → Int
  index : Nat

/-- Initial console state: static storage is zero-initialised in C and the
cursor starts at `0`. -/
def initConsole : ConsoleState := ⟨fun _ => 0, 0⟩

/-- One invocation of `__pi_libc_write(fd, buffer, len)` as observed by the
host: the file descriptor, the `len` bytes the host reads starting at the
buffer address, and the length word itself. -/
structure WriteCall where
  fd : Int
  data : List Int
  len : Nat
deriving DecidableEq

/-- A host model for the console path: the value `__pi_libc_semihost_write`
returns for a given write call (e.g. a bytes-written count).  The C wrapper
`__pi_libc_write` has return type `void`, so this value is dropped. -/
def HostWrite : Type := WriteCall → Int

/-- `__pi_libc_fputc_safe` from `chips/pulp_open/kernel/hal.c`:

```c
buffer[*index] = c;
*index = *index + 1;
if (*index == PI_LIBC_PUTC_BUFFER_SIZE || c == '\n')
{
    buffer[*index] = 0;
    __pi_libc_write(1, (uint8_t *)buffer, *index);
    *index = 0;
}
return 0;
```

Returns the successor state, the list of `__pi_libc_write` invocations this
call performed (in order), and the C return value. -/
def fputc_safe (host : HostWrite) (c : Int) (s : ConsoleState) :
    ConsoleState × List WriteCall × Int :=
  let buffer := store s.buffer s.index (charOfInt c)
  let index := s.index + 1
  if index = PI_LIBC_PUTC_BUFFER_SIZE ∨ c = 10 then
    let buffer2 := store buffer index 0
    let ev : WriteCall := ⟨1, (List.range index).map buffer2, index⟩
    let _ret := host ev
    (⟨buffer2, 0⟩, [ev], 0)
  else
    (⟨buffer, index⟩, [], 0)

/-- Run `__pi_libc_fputc_safe` over a whole sequence of characters,
concatenating the write calls issued along the way. -/
def runPutc (host : HostWrite) (cs : List Int) (s : ConsoleState) :
    ConsoleState × List WriteCall :=
  match cs with
  | [] => (s, [])
  | c :: rest =>
    let r := fputc_safe host c s
    let r2 := runPutc host rest r.1
    (r2.1, r.2.1 ++ r2.2)

/-- A console state reachable from the initial state by some sequence of
`__pi_libc_fputc_safe` calls (under some host). -/
def Reachable (s : ConsoleState) : Prop :=
  ∃ host cs, s = (runPutc host cs initConsole).1

/-- `puts` from `lib/libc/minimal/io.c`:

```c
char c;
do {
    c = *s;
    if (c == 0) { __pi_libc_fputc_safe('\n', NULL); break; }
    __pi_libc_fputc_safe(c, NULL);
    s++;
} while(1);
return 0;
```

The string is modelled as the list of bytes stored before the terminating
null; reaching the list's end models reading the terminator.  A zero byte
inside the list likewise terminates the loop, as in C. -/
def putsAux (host : HostWrite) : List Int → ConsoleState → ConsoleState × List WriteCall
  | [], s => ((fputc_safe host 10 s).1, (fputc_safe host 10 s).2.1)
  | c :: rest, s =>
    if c = 0 then ((fputc_safe host 10 s).1, (fputc_safe host 10 s).2.1)
    else
      let r := fputc_safe host c s
      let r2 := putsAux host rest r.1
      (r2.1, r.2.1 ++ r2.2)

/-- `puts(s)`: the final console state, the write calls issued, and the C
return value. -/
def puts (host : HostWrite) (s : List Int) (st : ConsoleState) :
    (ConsoleState × List WriteCall) × Int :=
  (putsAux host s st, 0)

/-! ## Trap-level model (`src/kernel/semihost.h`) -/

/-- `SEMIHOSTING_SYS_OPEN` from the operation-number enumeration. -/
def SEMIHOSTING_SYS_OPEN : Int := 0x01

/-- `SEMIHOSTING_SYS_WRITE` from the operation-number enumeration. -/
def SEMIHOSTING_SYS_WRITE : Int := 0x05

/-- `SEMIHOSTING_SYS_EXIT` from the operation-number enumeration. -/
def SEMIHOSTING_SYS_EXIT : Int := 0x18

/-- `SEMIHOST_EXIT_SUCCESS` (`0x20026`). -/
def SEMIHOST_EXIT_SUCCESS : Int := 0x20026

/-- `SEMIHOST_EXIT_ERROR` (`0x20023`). -/
def SEMIHOST_EXIT_ERROR : Int := 0x20023

/-- The machine word width.  `uint_t` is defined in `kernel/riscv.h` (not part
of the sources under study); the specification describes argument-block
entries as machine-word-sized values on this rv32 target, hence 32 bits. -/
def wordSize : Nat := 2 ^ 32

/-- Conversion of a C integer to a `uint_t` machine word: two's-complement
reduction mod `2^32`, as performed by the casts `(uint_t)mode`,
`(uint_t)(long)fd`, `(uint_t)(long)len`. -/
def wordOfInt (x : Int) : Nat := (x % (wordSize : Int)).toNat

/-- Reduction of an address (already nonnegative) to a machine word, as
performed by `(uint_t)(long)name` and `(uint_t)(long)buffer`. -/
def wordOfAddr (a : Nat) : Nat := a % wordSize

/-- `strlen` over the modelled string: the number of bytes before the first
null byte (the list carries the bytes stored before the implicit
terminator). -/
def strlen (s : List Int) : Nat := (s.takeWhile (fun c => c != 0)).length

/-- One semihosting trap as issued by a typed wrapper that passes the address
of a stack-allocated argument block: the operation number placed in `a0` and
the words of the argument block `a1` points at. -/
structure SemihostCall where
  op : Int
  block : List Nat
deriving DecidableEq

/-- A host model for the trap primitive: the value returned in `a0`. -/
def HostTrap : Type := SemihostCall → Int

/-- `__pi_libc_semihost_open(name, mode)`:

```c
uint_t len = strlen(name);
uint_t args[3] = {(uint_t)(long)name, (uint_t)mode, len};
return __pi_libc_semihost(SEMIHOSTING_SYS_OPEN, (long)args);
```

The string argument is modelled as its address `nameAddr` plus the bytes
`name` stored there before the implicit terminator.  Returns the trap issued
and the C return value (the host's reply). -/
def semihost_open (host : HostTrap) (nameAddr : Nat) (name : List Int) (mode : Int) :
    SemihostCall × Int :=
  let len := strlen name
  let args : List Nat := [wordOfAddr nameAddr, wordOfInt mode, wordOfAddr len]
  let call : SemihostCall := ⟨SEMIHOSTING_SYS_OPEN, args⟩
  (call, host call)

/-- `__pi_libc_semihost_write(fd, buffer, len)`:

```c
uint_t args[3] = {(uint_t)(long)fd, (uint_t)(long)buffer, (uint_t)(long)len};
return __pi_libc_semihost(SEMIHOSTING_SYS_WRITE, (long)args);
```

The buffer argument is modelled by its address `bufAddr`. -/
def semihost_write (host : HostTrap) (fd : Int) (bufAddr : Nat) (len : Int) :
    SemihostCall × Int :=
  let args : List Nat := [wordOfInt fd, wordOfAddr bufAddr, wordOfInt len]
  let call : SemihostCall := ⟨SEMIHOSTING_SYS_WRITE, args⟩
  (call, host call)

/-- Decoding of a 3-word argument block on a mock host: reads the three words
back, failing if the block does not have exactly three words. -/
def decode3 (b : List Nat) : Option (Nat × Nat × Nat) :=
  match b with
  | [w0, w1, w2] => some (w0, w1, w2)
  | _ => none

/-- `__pi_libc_semihost_exit(code)`: a single trap with operation
`SEMIHOSTING_SYS_EXIT` and the code passed as the scalar argument word. -/
def semihost_exit (host : HostTrap) (code : Int) : SemihostCall × Int :=
  let call : SemihostCall := ⟨SEMIHOSTING_SYS_EXIT, [wordOfInt code]⟩
  (call, host call)

/-- `__pi_init_platform_exit(status)` from `chips/pulp_open/kernel/hal.h`:

```c
__pi_libc_semihost_exit(status == 0 ? SEMIHOST_EXIT_SUCCESS : SEMIHOST_EXIT_ERROR);
while(1);
```

Returns the list of traps issued (in order) and a flag recording whether
control returns to the caller; the trailing `while(1);` makes it `false`. -/
def init_platform_exit (host : HostTrap) (status : Int) :
    List SemihostCall × Bool :=
  let r := semihost_exit host (if status = 0 then SEMIHOST_EXIT_SUCCESS else SEMIHOST_EXIT_ERROR)
  ([r.1], false)

/-! ## Lemmas about the console model -/

/-- Sequential stores of a character list into memory starting at index `i`,
each store performing the `int`-to-`char` conversion, as the successive
`buffer[*index] = c` statements do. -/
def storeList (buf : Nat → Int) (i : Nat) (cs : List Int) : Nat → Int :=
  match cs with
  | [] => buf
  | c :: rest => storeList (store buf i (charOfInt c)) (i + 1) rest

lemma store_self (buf : Nat → Int) (i : Nat) (v : Int) : store buf i v i = v := by
  simp [store]

lemma store_ne (buf : Nat → Int) (i j : Nat) (v : Int) (h : j ≠ i) :
    store buf i v j = buf j := by
  simp [store, h]

lemma charOfInt_of_byte {c : Int} (h : IsByte c) : charOfInt c = c := by
  rcases h with ⟨h0, h1⟩
  simpa [charOfInt] using Int.emod_eq_of_lt h0 h1

lemma map_charOfInt_id : ∀ l : List Int, (∀ c ∈ l, IsByte c) → l.map charOfInt = l
  | [], _ => rfl
  | c :: rest, h => by
    have hc : charOfInt c = c := charOfInt_of_byte (h c (by simp))
    have hr := map_charOfInt_id rest (fun x hx => h x (by simp [hx]))
    simp [hc, hr]

lemma storeList_append (buf : Nat → Int) (i : Nat) :
    ∀ xs ys : List Int,
      storeList buf i (xs ++ ys) = storeList (storeList buf i xs) (i + xs.length) ys := by
  intro xs
  induction xs generalizing buf i with
  | nil => intro ys; simp [storeList]
  | cons c rest ih =>
    intro ys
    simp only [List.cons_append, storeList, List.length_cons, List.append_eq]
    rw [ih]
    ring_nf

lemma range_map_storeList :
    ∀ (cs : List Int) (buf : Nat → Int) (i : Nat),
      (List.range (i + cs.length)).map (storeList buf i cs) =
        (List.range i).map buf ++ cs.map charOfInt := by
  intro cs
  induction cs with
  | nil => intro buf i; simp [storeList]
  | cons c rest ih =>
    intro buf i
    have h1 : i + (c :: rest).length = (i + 1) + rest.length := by
      simp [List.length_cons]; ring
    rw [h1]
    simp only [storeList]
    rw [ih (store buf i (charOfInt c)) (i + 1)]
    rw [List.range_succ, List.map_append]
    have h2 : (List.range i).map (store buf i (charOfInt c)) = (List.range i).map buf := by
      apply List.map_congr_left
      intro j hj
      exact store_ne buf i j _ (Nat.ne_of_lt (List.mem_range.mp hj))
    simp [h2, store_self]

/-- Running a sequence with no newline that keeps the cursor strictly below
capacity performs no write: the characters are stored sequentially and the
cursor advances. -/
lemma runPutc_no_flush (host : HostWrite) :
    ∀ (cs : List Int) (s : ConsoleState),
      (∀ c ∈ cs, c ≠ 10) → s.index + cs.length < PI_LIBC_PUTC_BUFFER_SIZE →
      runPutc host cs s = (⟨storeList s.buffer s.index cs, s.index + cs.length⟩, []) := by
  intro cs
  induction cs with
  | nil => intro s _ _; simp [runPutc, storeList]
  | cons c rest ih =>
    intro s hnl hlen
    have hc : c ≠ 10 := hnl c (by simp)
    have hidx : ¬ (s.index + 1 = PI_LIBC_PUTC_BUFFER_SIZE ∨ c = 10) := by
      push_neg
      refine ⟨?_, hc⟩
      have : s.index + 1 ≤ s.index + (c :: rest).length := by
        simp [List.length_cons]
      omega
    have hstep : fputc_safe host c s =
        (⟨store s.buffer s.index (charOfInt c), s.index + 1⟩, [], 0) := by
      simp [fputc_safe, hidx]
    have hrest := ih ⟨store s.buffer s.index (charOfInt c), s.index + 1⟩
      (fun x hx => hnl x (by simp [hx]))
      (by simp only [List.length_cons] at hlen ⊢; omega)
    simp only [runPutc, hstep, hrest, storeList, List.length_cons]
    refine Prod.ext ?_ (by simp)
    simp only
    congr 1
    omega

lemma runPutc_append (host : HostWrite) :
    ∀ (xs ys : List Int) (s : ConsoleState),
      runPutc host (xs ++ ys) s =
        ((runPutc host ys (runPutc host xs s).1).1,
          (runPutc host xs s).2 ++ (runPutc host ys (runPutc host xs s).1).2) := by
  intro xs
  induction xs with
  | nil => intro ys s; simp [runPutc]
  | cons c rest ih =>
    intro ys s
    simp only [List.cons_append, runPutc, List.append_eq]
    rw [ih]
    simp [List.append_assoc]

/-- A call whose appended character is a newline, or that fills the buffer,
flushes: the terminator is stored one slot past the appended byte, the write
transmits the first `index + 1` bytes of the buffer, and the cursor resets. -/
lemma fputc_flush_eq (host : HostWrite) (c : Int) (buf : Nat → Int) (n : Nat)
    (h : n + 1 = PI_LIBC_PUTC_BUFFER_SIZE ∨ c = 10) :
    fputc_safe host c ⟨buf, n⟩ =
      (⟨store (store buf n (charOfInt c)) (n + 1) 0, 0⟩,
        [⟨1, (List.range (n + 1)).map (store buf n (charOfInt c)), n + 1⟩], 0) := by
  have hdata : (List.range (n + 1)).map
      (store (store buf n (charOfInt c)) (n + 1) 0) =
      (List.range (n + 1)).map (store buf n (charOfInt c)) := by
    apply List.map_congr_left
    intro j hj
    exact store_ne _ _ _ _ (Nat.ne_of_lt (List.mem_range.mp hj))
  simp [fputc_safe, h, hdata]

/-- End-to-end: from the initial state, a sequence of non-newline bytes
followed by one final character that triggers a flush (by filling the buffer
or by being a newline) performs exactly one write, transmitting all appended
characters, and resets the cursor. -/
lemma runPutc_flush_end (host : HostWrite) (pre : List Int) (c : Int)
    (hlen : pre.length < PI_LIBC_PUTC_BUFFER_SIZE)
    (hnl : ∀ x ∈ pre, x ≠ 10)
    (hflush : pre.length + 1 = PI_LIBC_PUTC_BUFFER_SIZE ∨ c = 10) :
    runPutc host (pre ++ [c]) initConsole =
      (⟨store (storeList (fun _ => 0) 0 (pre ++ [c])) (pre.length + 1) 0, 0⟩,
        [⟨1, (pre ++ [c]).map charOfInt, pre.length + 1⟩]) := by
  have hpre := runPutc_no_flush host pre initConsole hnl
    (by simpa [initConsole] using hlen)
  simp only [initConsole] at hpre
  rw [Nat.zero_add] at hpre
  have hstep := fputc_flush_eq host c (storeList (fun _ => 0) 0 pre) pre.length hflush
  have hbuf : store (storeList (fun _ => 0) 0 pre) pre.length (charOfInt c) =
      storeList (fun _ => 0) 0 (pre ++ [c]) := by
    rw [storeList_append]
    simp [storeList]
  have hdata : (List.range (pre.length + 1)).map
      (store (storeList (fun _ => 0) 0 pre) pre.length (charOfInt c)) =
      (pre ++ [c]).map charOfInt := by
    rw [hbuf]
    have h := range_map_storeList (pre ++ [c]) (fun _ => 0) 0
    simpa using h
  rw [runPutc_append]
  simp only [initConsole]
  rw [hpre]
  simp only [runPutc, hstep]
  rw [hdata, hbuf]
  simp

/-- The cursor never exceeds `capacity - 1` after any call (a call that would
reach capacity flushes and resets it). -/
lemma fputc_index_le (host : HostWrite) (c : Int) (s : ConsoleState)
    (h : s.index ≤ 127) : (fputc_safe host c s).1.index ≤ 127 := by
  by_cases hcond : s.index + 1 = PI_LIBC_PUTC_BUFFER_SIZE ∨ c = 10
  · simp [fputc_safe, hcond]
  · have : s.index + 1 ≠ PI_LIBC_PUTC_BUFFER_SIZE := by
      intro hx; exact hcond (Or.inl hx)
    simp only [fputc_safe, if_neg hcond]
    simp only [PI_LIBC_PUTC_BUFFER_SIZE] at this
    omega

lemma runPutc_index_le (host : HostWrite) :
    ∀ (cs : List Int) (s : ConsoleState), s.index ≤ 127 →
      (runPutc host cs s).1.index ≤ 127 := by
  intro cs
  induction cs with
  | nil => intro s h; simpa [runPutc] using h
  | cons c rest ih =>
    intro s h
    simp only [runPutc]
    exact ih _ (fputc_index_le host c s h)

lemma strlen_le : ∀ l : List Int, strlen l ≤ l.length
  | [] => Nat.le_refl _
  | c :: rest => by
    by_cases hc : (c != 0) = true
    · have h := strlen_le rest
      simp only [strlen, List.takeWhile_cons, hc, if_true, List.length_cons]
      simp only [strlen] at h
      omega
    · simp [strlen, List.takeWhile_cons, hc]

lemma strlen_eq_length (l : List Int) (h : ∀ c ∈ l, c ≠ 0) : strlen l = l.length := by
  unfold strlen
  rw [List.takeWhile_eq_self_iff.mpr (fun x hx => by simpa using h x hx)]

/-! ### Sanity checks on concrete inputs -/

example : (runPutc (fun _ => 0) [104, 105, 10] initConsole).2 =
    [⟨1, [104, 105, 10], 3⟩] := by decide

example : (runPutc (fun _ => 0) [104, 105] initConsole).2 = [] := by decide

example : (puts (fun _ => 0) [] initConsole).1.2 = [⟨1, [10], 1⟩] := by decide

example : (init_platform_exit (fun _ => 0) 0).1 =
    [⟨0x18, [wordOfInt 0x20026]⟩] := by decide

/-! ## The claims -/

/-- C1: for every sequence of `__pi_libc_fputc_safe` calls from the initial
console state whose first newline is at position `k` with `k < 128`, the
underlying write is invoked exactly once, immediately after the call that
appended the newline (the first `k` calls invoke it zero times), with file
descriptor `1` and length exactly `k + 1`, and the `k + 1` transmitted bytes
are the appended characters in order, ending in the newline.  The sequence is
presented as `pre ++ [10]` with `pre` newline-free of length `k`. -/
theorem c1_newline_flush (host : HostWrite) (pre : List Int)
    (hk : pre.length < PI_LIBC_PUTC_BUFFER_SIZE)
    (hnl : ∀ c ∈ pre, c ≠ 10)
    (hbyte : ∀ c ∈ pre, IsByte c) :
    (runPutc host (pre ++ [10]) initConsole).2 =
      [⟨1, pre ++ [10], pre.length + 1⟩] ∧
    (runPutc host pre initConsole).2 = [] := by
  have hall : ∀ c ∈ pre ++ [10], IsByte c := by
    intro c hc
    rcases List.mem_append.mp hc with h | h
    · exact hbyte c h
    · simp only [List.mem_singleton] at h
      subst h
      exact ⟨by norm_num, by norm_num⟩
  have h := runPutc_flush_end host pre 10 hk hnl (Or.inr rfl)
  constructor
  · rw [h]
    simp [map_charOfInt_id (pre ++ [10]) hall]
  · rw [runPutc_no_flush host pre initConsole hnl (by simpa [initConsole] using hk)]

/-- Witness for C1 at the concrete sequence `"hi\n"` (bytes `104, 105, 10`). -/
theorem c1_newline_flush_witness :
    (([104, 105] : List Int).length < PI_LIBC_PUTC_BUFFER_SIZE) ∧
    ((runPutc (fun _ => 0) (([104, 105] : List Int) ++ [10]) initConsole).2 =
      [⟨1, ([104, 105] : List Int) ++ [10], ([104, 105] : List Int).length + 1⟩] ∧
    (runPutc (fun _ => 0) ([104, 105] : List Int) initConsole).2 = []) :=
  ⟨by decide,
    c1_newline_flush (fun _ => 0) [104, 105] (by decide) (by decide) (by decide)⟩

/-- C2: for every sequence of exactly 128 `__pi_libc_fputc_safe` calls from
the initial state with no newline, the underlying write is invoked exactly
once, on the capacity-reaching call (the first 127 calls invoke it zero
times), transmitting exactly 128 bytes — the appended characters in order —
and the cursor is `0` afterwards. -/
theorem c2_capacity_flush (host : HostWrite) (cs : List Int)
    (hlen : cs.length = PI_LIBC_PUTC_BUFFER_SIZE)
    (hnl : ∀ c ∈ cs, c ≠ 10)
    (hbyte : ∀ c ∈ cs, IsByte c) :
    (runPutc host cs initConsole).2 = [⟨1, cs, PI_LIBC_PUTC_BUFFER_SIZE⟩] ∧
    (runPutc host cs.dropLast initConsole).2 = [] ∧
    (runPutc host cs initConsole).1.index = 0 := by
  have hne : cs ≠ [] := by
    intro h
    rw [h] at hlen
    simp [PI_LIBC_PUTC_BUFFER_SIZE] at hlen
  have hdec : cs.dropLast ++ [cs.getLast hne] = cs := List.dropLast_concat_getLast hne
  have hdl : cs.dropLast.length = 127 := by
    rw [List.length_dropLast, hlen]
    decide
  have hnl' : ∀ x ∈ cs.dropLast, x ≠ 10 :=
    fun x hx => hnl x (List.dropLast_subset cs hx)
  have hflush : cs.dropLast.length + 1 = PI_LIBC_PUTC_BUFFER_SIZE := by
    rw [hdl]
    decide
  have h := runPutc_flush_end host cs.dropLast (cs.getLast hne)
    (by rw [hdl]; norm_num [PI_LIBC_PUTC_BUFFER_SIZE]) hnl' (Or.inl hflush)
  rw [hdec] at h
  refine ⟨?_, ?_, ?_⟩
  · rw [h]
    simp [map_charOfInt_id cs hbyte, hdl, PI_LIBC_PUTC_BUFFER_SIZE]
  · rw [runPutc_no_flush host cs.dropLast initConsole hnl'
      (by simp [initConsole, hdl, PI_LIBC_PUTC_BUFFER_SIZE])]
  · rw [h]

set_option maxRecDepth 10000 in
/-- Witness for C2 at 128 copies of the byte `97` (`'a'`). -/
theorem c2_capacity_flush_witness :
    ((List.replicate 128 (97 : Int)).length = PI_LIBC_PUTC_BUFFER_SIZE) ∧
    ((runPutc (fun _ => 0) (List.replicate 128 (97 : Int)) initConsole).2 =
      [⟨1, List.replicate 128 (97 : Int), PI_LIBC_PUTC_BUFFER_SIZE⟩] ∧
    (runPutc (fun _ => 0) (List.replicate 128 (97 : Int)).dropLast initConsole).2 = [] ∧
    (runPutc (fun _ => 0) (List.replicate 128 (97 : Int)) initConsole).1.index = 0) :=
  ⟨by decide,
    c2_capacity_flush (fun _ => 0) (List.replicate 128 97) (by decide) (by decide)
      (by decide)⟩

/-- C3 (evaluation at the failing input): feeding 128 non-newline bytes from
the initial state triggers a capacity flush whose write call has
`len = 128 = PI_LIBC_PUTC_BUFFER_SIZE`.  Per `fputc_safe` (mirroring
`buffer[*index] = 0` in the C source), the flush stores its terminator byte
at buffer index `len`; here that index is `128`, one past the end of the
128-byte array `__pi_libc_buffer`, so the claim that every terminator store
satisfies `cursor < 128` fails on this input. -/
theorem c3_term_store_at_capacity :
    (runPutc (fun _ => 0) (List.replicate PI_LIBC_PUTC_BUFFER_SIZE (97 : Int))
        initConsole).2 =
      [⟨1, List.replicate PI_LIBC_PUTC_BUFFER_SIZE (97 : Int),
        PI_LIBC_PUTC_BUFFER_SIZE⟩] := by
  have hrepl : List.replicate PI_LIBC_PUTC_BUFFER_SIZE (97 : Int) =
      List.replicate 127 (97 : Int) ++ [97] := by
    simp [PI_LIBC_PUTC_BUFFER_SIZE, List.replicate_succ']
  have hnl : ∀ x ∈ List.replicate 127 (97 : Int), x ≠ 10 := by
    intro x hx
    rw [List.eq_of_mem_replicate hx]
    norm_num
  have h := runPutc_flush_end (fun _ => 0) (List.replicate 127 (97 : Int)) 97
    (by simp [PI_LIBC_PUTC_BUFFER_SIZE]) hnl
    (Or.inl (by simp [PI_LIBC_PUTC_BUFFER_SIZE]))
  rw [hrepl, h]
  have hbyte : ∀ c ∈ List.replicate 127 (97 : Int) ++ [97], IsByte c := by
    intro c hc
    rcases List.mem_append.mp hc with hm | hm
    · rw [List.eq_of_mem_replicate hm]; exact ⟨by norm_num, by norm_num⟩
    · simp only [List.mem_singleton] at hm
      rw [hm]; exact ⟨by norm_num, by norm_num⟩
  rw [map_charOfInt_id _ hbyte]
  simp [PI_LIBC_PUTC_BUFFER_SIZE, List.replicate_succ']

/-- C4: in every state reachable by `__pi_libc_fputc_safe` calls the cursor
satisfies `0 ≤ cursor ≤ 128` (being a `Nat` it is nonnegative; in fact it
stays `≤ 127`); each call stores its appended byte at the cursor position
(the cursor indicates the next free slot); a call performs a write exactly
when the incremented cursor reaches capacity or the appended byte is a
newline, and whenever it performs a write it resets the cursor to `0`;
consequently a newline-free sequence shorter than capacity invokes the write
operation zero times. -/
theorem c4_invariant :
    (∀ s, Reachable s → s.index ≤ PI_LIBC_PUTC_BUFFER_SIZE) ∧
    (∀ (host : HostWrite) (c : Int) (s : ConsoleState),
      (fputc_safe host c s).1.buffer s.index = charOfInt c) ∧
    (∀ (host : HostWrite) (c : Int) (s : ConsoleState),
      ((fputc_safe host c s).2.1 ≠ [] ↔
        (s.index + 1 = PI_LIBC_PUTC_BUFFER_SIZE ∨ c = 10)) ∧
      ((fputc_safe host c s).2.1 ≠ [] → (fputc_safe host c s).1.index = 0)) ∧
    (∀ (host : HostWrite) (cs : List Int),
      (∀ c ∈ cs, c ≠ 10) → cs.length < PI_LIBC_PUTC_BUFFER_SIZE →
      (runPutc host cs initConsole).2 = []) := by
  refine ⟨?_, ?_, ?_, ?_⟩
  · rintro s ⟨host, cs, rfl⟩
    have h := runPutc_index_le host cs initConsole (by simp [initConsole])
    simp only [PI_LIBC_PUTC_BUFFER_SIZE]
    omega
  · intro host c s
    by_cases hcond : s.index + 1 = PI_LIBC_PUTC_BUFFER_SIZE ∨ c = 10
    · simp only [fputc_safe, if_pos hcond]
      rw [store_ne _ _ _ _ (by omega), store_self]
    · simp only [fputc_safe, if_neg hcond]
      rw [store_self]
  · intro host c s
    by_cases hcond : s.index + 1 = PI_LIBC_PUTC_BUFFER_SIZE ∨ c = 10
    · constructor
      · simp [fputc_safe, hcond]
      · intro _
        simp [fputc_safe, hcond]
    · constructor
      · simp [fputc_safe, hcond]
      · intro hne
        exact absurd (by simp [fputc_safe, hcond]) hne
  · intro host cs hnl hlen
    rw [runPutc_no_flush host cs initConsole hnl (by simpa [initConsole] using hlen)]

/-- Witness for C4: the initial state is reachable and satisfies the cursor
bound, and the newline-free single-byte sequence `[104]` performs no write. -/
theorem c4_invariant_witness :
    initConsole.index ≤ PI_LIBC_PUTC_BUFFER_SIZE ∧
    (runPutc (fun _ => 0) ([104] : List Int) initConsole).2 = [] :=
  ⟨c4_invariant.1 initConsole ⟨fun _ => 0, [], rfl⟩,
    c4_invariant.2.2.2 (fun _ => 0) [104] (by decide) (by decide)⟩

/-- C5: `__pi_init_platform_exit(0)` issues exactly one trap, with operation
code `SEMIHOSTING_SYS_EXIT = 0x18` and argument `SEMIHOST_EXIT_SUCCESS =
0x20026`; for any nonzero status the single trap instead carries
`SEMIHOST_EXIT_ERROR = 0x20023`; no other trap is issued, and control does
not return (the trailing `while(1);` is modelled by the returns-flag being
`false`). -/
theorem c5_platform_exit (host : HostTrap) (status : Int) :
    (status = 0 →
      (init_platform_exit host status).1 = [⟨(0x18 : Int), [(0x20026 : Nat)]⟩]) ∧
    (status ≠ 0 →
      (init_platform_exit host status).1 = [⟨(0x18 : Int), [(0x20023 : Nat)]⟩]) ∧
    (init_platform_exit host status).1.length = 1 ∧
    (init_platform_exit host status).2 = false := by
  refine ⟨?_, ?_, ?_, rfl⟩
  · intro h
    subst h
    simp only [init_platform_exit, semihost_exit, if_pos rfl]
    norm_num [SEMIHOSTING_SYS_EXIT, SEMIHOST_EXIT_SUCCESS, wordOfInt, wordSize]
    decide
  · intro h
    simp only [init_platform_exit, semihost_exit, if_neg h]
    norm_num [SEMIHOSTING_SYS_EXIT, SEMIHOST_EXIT_ERROR, wordOfInt, wordSize]
    decide
  · rfl

/-- Witness for C5 at statuses `0` and `1`. -/
theorem c5_platform_exit_witness :
    ((0 : Int) = 0) ∧
    ((init_platform_exit (fun _ => 0) 0).1 = [⟨(0x18 : Int), [(0x20026 : Nat)]⟩]) ∧
    ((init_platform_exit (fun _ => 0) 1).1 = [⟨(0x18 : Int), [(0x20023 : Nat)]⟩]) :=
  ⟨rfl, (c5_platform_exit (fun _ => 0) 0).1 rfl,
    (c5_platform_exit (fun _ => 0) 1).2.1 (by decide)⟩

/-- C6: on every flush performed by `__pi_libc_fputc_safe` (capacity reached
or newline appended), a null terminator is stored at `buffer[cursor]` — one
slot past the last appended byte, the cursor having been incremented to
`s.index + 1` — before the write is invoked, while the length passed to the
write is `cursor` itself (`s.index + 1`), not `cursor + 1`: the transmitted
data covers buffer indices `0 .. cursor - 1` only, so the terminator byte is
stored in the buffer but never counted in the transmitted length. -/
theorem c6_flush_terminator (host : HostWrite) (c : Int) (s : ConsoleState)
    (h : s.index + 1 = PI_LIBC_PUTC_BUFFER_SIZE ∨ c = 10) :
    (fputc_safe host c s).1.buffer (s.index + 1) = 0 ∧
    (fputc_safe host c s).2.1 =
      [⟨1, (List.range (s.index + 1)).map (store s.buffer s.index (charOfInt c)),
        s.index + 1⟩] ∧
    ((List.range (s.index + 1)).map
      (store s.buffer s.index (charOfInt c))).length = s.index + 1 := by
  obtain ⟨buf, n⟩ := s
  simp only at h ⊢
  rw [fputc_flush_eq host c buf n h]
  refine ⟨?_, rfl, ?_⟩
  · exact store_self _ _ _
  · simp

/-- Witness for C6: a newline appended to the initial state flushes. -/
theorem c6_flush_terminator_witness :
    (initConsole.index + 1 = PI_LIBC_PUTC_BUFFER_SIZE ∨ (10 : Int) = 10) ∧
    ((fputc_safe (fun _ => 0) 10 initConsole).1.buffer (initConsole.index + 1) = 0 ∧
    (fputc_safe (fun _ => 0) 10 initConsole).2.1 =
      [⟨1, (List.range (initConsole.index + 1)).map
        (store initConsole.buffer initConsole.index (charOfInt 10)),
        initConsole.index + 1⟩] ∧
    ((List.range (initConsole.index + 1)).map
      (store initConsole.buffer initConsole.index (charOfInt 10))).length =
        initConsole.index + 1) :=
  ⟨Or.inr rfl, c6_flush_terminator (fun _ => 0) 10 initConsole (Or.inr rfl)⟩

lemma putsAux_eq (host : HostWrite) :
    ∀ (s : List Int) (st : ConsoleState), (∀ c ∈ s, c ≠ 0) →
      putsAux host s st = runPutc host (s ++ [10]) st := by
  intro s
  induction s with
  | nil => intro st _; simp [putsAux, runPutc]
  | cons c rest ih =>
    intro st h
    have hc : c ≠ 0 := h c (by simp)
    simp only [putsAux, if_neg hc, List.cons_append, runPutc, List.append_eq]
    rw [ih _ (fun x hx => h x (by simp [hx]))]

/-- C7: `puts(s)` feeds each character of the string, in order and excluding
the terminating null, through `__pi_libc_fputc_safe`, then feeds exactly one
trailing newline — i.e. it is exactly the run of `s ++ [newline]` — and
returns `0`; in particular `puts("")` produces exactly one write carrying the
single newline byte and no other bytes. -/
theorem c7_puts (host : HostWrite) (s : List Int) (st : ConsoleState)
    (h0 : ∀ c ∈ s, c ≠ 0) :
    puts host s st = (runPutc host (s ++ [10]) st, 0) ∧
    (puts host ([] : List Int) initConsole).1.2 = [⟨1, [10], 1⟩] ∧
    (puts host s st).2 = 0 := by
  refine ⟨?_, ?_, rfl⟩
  · unfold puts
    rw [putsAux_eq host s st h0]
  · unfold puts
    simp only [putsAux, initConsole]
    rw [fputc_flush_eq host 10 (fun _ => 0) 0 (Or.inr rfl)]
    simp [List.range_succ, store_self, charOfInt]

/-- Witness for C7 at the string `"hi"` (bytes `104, 105`). -/
theorem c7_puts_witness :
    (∀ c ∈ ([104, 105] : List Int), c ≠ 0) ∧
    (puts (fun _ => 0) ([104, 105] : List Int) initConsole =
      (runPutc (fun _ => 0) (([104, 105] : List Int) ++ [10]) initConsole, 0) ∧
    (puts (fun _ => 0) ([] : List Int) initConsole).1.2 = [⟨1, [10], 1⟩] ∧
    (puts (fun _ => 0) ([104, 105] : List Int) initConsole).2 = 0) :=
  ⟨by decide, c7_puts (fun _ => 0) [104, 105] initConsole (by decide)⟩

lemma fputc_host_irrel (h1 h2 : HostWrite) (c : Int) (s : ConsoleState) :
    fputc_safe h1 c s = fputc_safe h2 c s := rfl

/-- C8: `__pi_libc_fputc_safe` returns `0` for every input character and
every console state, and its entire result — returned value, successor state
and write calls — is independent of the value the underlying semihosting
write returns to the flush path (the host's byte count is never compared
against the requested length, so a short write leaves everything exactly as
a full write would); the same holds across whole call sequences. -/
theorem c8_ret0_host_independent (h1 h2 : HostWrite) (c : Int) (s : ConsoleState)
    (cs : List Int) :
    (fputc_safe h1 c s).2.2 = 0 ∧
    fputc_safe h1 c s = fputc_safe h2 c s ∧
    runPutc h1 cs s = runPutc h2 cs s := by
  refine ⟨?_, rfl, ?_⟩
  · simp only [fputc_safe]
    split <;> rfl
  · induction cs generalizing s with
    | nil => rfl
    | cons d rest ih =>
      simp only [runPutc]
      rw [fputc_host_irrel h1 h2 d s, ih]

/-- C9: `__pi_libc_semihost_open(name, mode)` passes to the trap a 3-word
argument block whose first word is the address of the name string, whose
second word is the mode, and whose third word equals `strlen(name)` exactly;
for the empty name the third word is `0` (`strlen [] = 0`). -/
theorem c9_open_args (host : HostTrap) (nameAddr : Nat) (name : List Int)
    (mode : Int) (ha : nameAddr < wordSize) (hm0 : 0 ≤ mode)
    (hm1 : mode < (wordSize : Int)) (hl : name.length < wordSize) :
    (semihost_open host nameAddr name mode).1 =
      ⟨SEMIHOSTING_SYS_OPEN, [nameAddr, mode.toNat, strlen name]⟩ ∧
    ((∀ c ∈ name, c ≠ 0) → strlen name = name.length) ∧
    strlen ([] : List Int) = 0 := by
  refine ⟨?_, fun h => strlen_eq_length name h, rfl⟩
  simp [semihost_open, wordOfAddr, wordOfInt, Nat.mod_eq_of_lt ha,
    Int.emod_eq_of_lt hm0 hm1,
    Nat.mod_eq_of_lt (lt_of_le_of_lt (strlen_le name) hl)]

/-- Witness for C9 at name `"a.txt"` (bytes `97, 46, 116, 120, 116`, so
`strlen = 5`), address `4096`, mode `0`. -/
theorem c9_open_args_witness :
    (4096 < wordSize) ∧
    ((semihost_open (fun _ => 0) 4096 ([97, 46, 116, 120, 116] : List Int) 0).1 =
      ⟨SEMIHOSTING_SYS_OPEN,
        [4096, (0 : Int).toNat, strlen ([97, 46, 116, 120, 116] : List Int)]⟩ ∧
    ((∀ c ∈ ([97, 46, 116, 120, 116] : List Int), c ≠ 0) →
      strlen ([97, 46, 116, 120, 116] : List Int) =
        ([97, 46, 116, 120, 116] : List Int).length) ∧
    strlen ([] : List Int) = 0) ∧
    strlen ([97, 46, 116, 120, 116] : List Int) = 5 :=
  ⟨by norm_num [wordSize],
    c9_open_args (fun _ => 0) 4096 [97, 46, 116, 120, 116] 0
      (by norm_num [wordSize]) (by norm_num) (by norm_num [wordSize])
      (by norm_num [wordSize]),
    by decide⟩

/-- C10: `__pi_libc_semihost_write(fd, buffer, len)` passes to the trap the
3-word argument block `{fd, buffer_address, len}`, and decoding that block on
a mock host reproduces the three inputs exactly (round-trip). -/
theorem c10_write_roundtrip (host : HostTrap) (fd : Int) (bufAddr : Nat)
    (len : Int) (hf0 : 0 ≤ fd) (hf1 : fd < (wordSize : Int))
    (hb : bufAddr < wordSize) (hl0 : 0 ≤ len) (hl1 : len < (wordSize : Int)) :
    (semihost_write host fd bufAddr len).1 =
      ⟨SEMIHOSTING_SYS_WRITE, [fd.toNat, bufAddr, len.toNat]⟩ ∧
    decode3 (semihost_write host fd bufAddr len).1.block =
      some (fd.toNat, bufAddr, len.toNat) := by
  have hblock : (semihost_write host fd bufAddr len).1 =
      ⟨SEMIHOSTING_SYS_WRITE, [fd.toNat, bufAddr, len.toNat]⟩ := by
    simp [semihost_write, wordOfAddr, wordOfInt, Nat.mod_eq_of_lt hb,
      Int.emod_eq_of_lt hf0 hf1, Int.emod_eq_of_lt hl0 hl1]
  refine ⟨hblock, ?_⟩
  rw [hblock]
  rfl

/-- Witness for C10: `write(fd = 1, buf at 2048, len = N)` for `N = 0` and
`N = 128` (the console capacity). -/
theorem c10_write_roundtrip_witness :
    ((0 : Int) ≤ 1) ∧
    (decode3 (semihost_write (fun _ => 0) 1 2048 0).1.block =
      some ((1 : Int).toNat, 2048, (0 : Int).toNat)) ∧
    (decode3 (semihost_write (fun _ => 0) 1 2048 128).1.block =
      some ((1 : Int).toNat, 2048, (128 : Int).toNat)) :=
  ⟨by decide,
    (c10_write_roundtrip (fun _ => 0) 1 2048 0 (by norm_num)
      (by norm_num [wordSize]) (by norm_num [wordSize]) (by norm_num)
      (by norm_num [wordSize])).2,
    (c10_write_roundtrip (fun _ => 0) 1 2048 128 (by norm_num)
      (by norm_num [wordSize]) (by norm_num [wordSize]) (by norm_num)
      (by norm_num [wordSize])).2⟩
